import Mathlib

/-!
Verification of the trading-dashboard chart core: the series reconciler
(deduplication by chart time with last-write-wins, then a stable ascending
sort), the point locator used by the click handler, the trade navigator,
and the marker builder, as implemented in
src/frontend/src/components/chart/TradingChart.tsx.

Modelling conventions.
Snapshot timestamps are ISO date-time strings of one uniform format in the
source; lexicographic string order on such strings coincides with
chronological order, and the chart time is computed by
new Date(timestamp).getTime() / 1000.  We therefore model a timestamp by
its epoch-millisecond value (an integer), and the chart time as that value
divided by 1000 as an exact rational, so that both the string comparisons
of handleNavigate/getNavigationState and the time equalities of the
deduplication are captured with their orders intact.
Runtime values of total_pnl and underlying_price can be a finite number,
NaN, positive or negative Infinity, null or undefined, which the type
JSVal enumerates; the source's typeof and isNaN tests are modelled on it.
JavaScript's Array.prototype.sort with comparator (a, b) => a.time - b.time
is a stable sort by ascending time; it is modelled by insertion sort with
relation timeLE, which is stable and sorts ascending.
-/

/-- JavaScript runtime value of a numeric-ish field (total_pnl,
underlying_price): a finite number, NaN, positive/negative Infinity,
null, or undefined. -/
inductive JSVal where
  | num (q : ℚ)
  | nan
  | inf
  | negInf
  | null
  | undef
deriving DecidableEq, Repr

/-- Result of the JavaScript test typeof v === 'number': true exactly for
finite numbers, NaN and the two infinities. -/
def typeofNumber : JSVal → Bool
  | .num _ => true
  | .nan => true
  | .inf => true
  | .negInf => true
  | .null => false
  | .undef => false

/-- Result of the JavaScript global isNaN(v): true for NaN and for
undefined (which coerces to NaN), false for finite numbers, the
infinities, and null (which coerces to 0). -/
def jsIsNaN : JSVal → Bool
  | .nan => true
  | .undef => true
  | .num _ => false
  | .inf => false
  | .negInf => false
  | .null => false

/-- Field type of TradeMarker.type: 'adjustment' | 'square_up' | 'none'. -/
inductive MarkerType where
  | adjustment
  | square_up
  | none
deriving DecidableEq, Repr

/-- Field change_type of PositionChange:
'new' | 'closed' | 'quantity_change' | 'price_change'. -/
inductive ChangeType where
  | new
  | closed
  | quantity_change
  | price_change
deriving DecidableEq, Repr

/-- Interface InstrumentInfo of src (types). -/
structure InstrumentInfo where
  id : Int
  symbol : String
  underlying_symbol : String
  type : String
  strike : Option ℚ
  expiry : Option String
deriving DecidableEq, Repr

/-- Interface PositionChange of src (types). -/
structure PositionChange where
  instrument_id : Int
  instrument_symbol : String
  instrument : Option InstrumentInfo
  change_type : ChangeType
  old_quantity : Option ℚ
  new_quantity : Option ℚ
  old_price : Option ℚ
  new_price : Option ℚ
deriving DecidableEq, Repr

/-- Interface PositionDetail of src (types). -/
structure PositionDetail where
  instrument_id : Int
  instrument : InstrumentInfo
  quantity : ℚ
  avg_price : ℚ
  last_price : ℚ
  unbooked_pnl : ℚ
  booked_pnl : ℚ
  underlying_price : ℚ
deriving DecidableEq, Repr

/-- Interface TradeMarker of src (types). -/
structure TradeMarker where
  type : MarkerType
  changes : List PositionChange
  summary : String
deriving DecidableEq, Repr

/-- Interface SnapshotData of src (types); the timestamp string is modelled
by its epoch-millisecond value, and the numeric fields that the chart code
probes with typeof/isNaN are modelled as JSVal (underlying_price is
JSVal.undef when the optional field is absent). -/
structure SnapshotData where
  timestamp : Int
  total_pnl : JSVal
  underlying_price : JSVal
  position_count : ℕ
  positions : List PositionDetail
  trade_marker : Option TradeMarker
deriving DecidableEq, Repr

/-- Interface underlying_range of DaySummary in src (types). -/
structure UnderlyingRange where
  min : ℚ
  max : ℚ
  open_ : ℚ
  close : ℚ
deriving DecidableEq, Repr

/-- Interface DaySummary of src (types). -/
structure DaySummary where
  date : String
  total_snapshots : ℕ
  total_trades : ℕ
  final_pnl : ℚ
  market_open : Option String
  market_close : Option String
  min_pnl : ℚ
  max_pnl : ℚ
  underlying_range : Option UnderlyingRange
deriving DecidableEq, Repr

/-- Interface TradingDayData of src (types). -/
structure TradingDayData where
  date : String
  summary : DaySummary
  timeseries : List SnapshotData
deriving DecidableEq, Repr

/-- Interface ChartData of src (types): the per-snapshot chart tuple. -/
structure ChartData where
  time : ℚ
  value : JSVal
  underlying : JSVal
  snapshot : Option SnapshotData
deriving DecidableEq, Repr

/-- Chart time of a snapshot: new Date(timestamp).getTime() / 1000, exact
division of the epoch-millisecond value by 1000, written with mkRat so
that concrete instances evaluate in the kernel (toSeconds_eq_div below
shows it is the division). -/
def toSeconds (ts : Int) : ℚ := mkRat ts 1000

theorem toSeconds_eq_div (ts : Int) : toSeconds ts = (ts : ℚ) / 1000 := by
  simp [toSeconds, Rat.mkRat_eq_div]

/-- Chart time is strictly monotone in the timestamp, so timestamp
comparisons and chart-time comparisons agree. -/
theorem toSeconds_lt_toSeconds {a b : Int} : toSeconds a < toSeconds b ↔ a < b := by
  rw [toSeconds_eq_div, toSeconds_eq_div,
    div_lt_div_iff₀ (by norm_num : (0:ℚ) < 1000) (by norm_num : (0:ℚ) < 1000),
    mul_lt_mul_right (by norm_num : (0:ℚ) < 1000)]
  exact Int.cast_lt

/-- Chart times are equal exactly when the timestamps are. -/
theorem toSeconds_inj {a b : Int} : toSeconds a = toSeconds b ↔ a = b := by
  rw [toSeconds_eq_div, toSeconds_eq_div,
    div_eq_div_iff (by norm_num : (1000:ℚ) ≠ 0) (by norm_num : (1000:ℚ) ≠ 0)]
  constructor
  · intro h
    have h2 : (a : ℚ) = b := mul_right_cancel₀ (by norm_num) h
    exact_mod_cast h2
  · intro h
    rw [h]

/-- Body of the map in TradingChart.tsx building chartData from the
timeseries: time is new Date(snapshot.timestamp).getTime() / 1000 (exact
division, modelled on epoch milliseconds), value is total_pnl, underlying
is underlying_price, and the snapshot itself is carried along. -/
def toChartData (s : SnapshotData) : ChartData :=
  { time := toSeconds s.timestamp
    value := s.total_pnl
    underlying := s.underlying_price
    snapshot := some s }

/-- Local chartData of TradingChart.tsx: currentData.timeseries.map. -/
def chartData (timeseries : List SnapshotData) : List ChartData :=
  timeseries.map toChartData

/-- One step of the reduce in uniqueChartData (TradingChart.tsx):
existingIndex = acc.findIndex(item => item.time === current.time);
when it is -1 (here: equal to acc.length) the current tuple is pushed,
otherwise acc[existingIndex] is overwritten with the current tuple. -/
def dedupStep (acc : List ChartData) (current : ChartData) : List ChartData :=
  let existingIndex := acc.findIdx (fun item => item.time == current.time)
  if existingIndex = acc.length then acc ++ [current]
  else acc.set existingIndex current

/-- Sort relation of the comparator (a, b) => a.time - b.time. -/
def timeLE (a b : ChartData) : Prop := a.time ≤ b.time

instance : DecidableRel timeLE :=
  fun a b => inferInstanceAs (Decidable (a.time ≤ b.time))

instance : IsTotal ChartData timeLE := ⟨fun a b => le_total a.time b.time⟩

instance : IsTrans ChartData timeLE := ⟨fun _ _ _ h₁ h₂ => le_trans h₁ h₂⟩

/-- Local uniqueChartData of TradingChart.tsx (appearing identically in the
click handler, the data effect and the markers effect): the reduce that
deduplicates chart tuples by time with last write winning, followed by
sort((a, b) => a.time - b.time), a stable ascending sort by time. -/
def uniqueChartData (timeseries : List SnapshotData) : List ChartData :=
  List.insertionSort timeLE ((chartData timeseries).foldl dedupStep [])

/-- Filter of the pnlData computation in the data effect:
typeof d.value === 'number' && !isNaN(d.value). -/
def pnlKeep (v : JSVal) : Bool := typeofNumber v && !jsIsNaN v

/-- Filter of the underlyingData computation in the data effect:
d.underlying !== null && d.underlying !== undefined &&
typeof d.underlying === 'number' && !isNaN(d.underlying). -/
def underlyingKeep (v : JSVal) : Bool :=
  !(v == JSVal.null) && !(v == JSVal.undef) && typeofNumber v && !jsIsNaN v

/-- Element shape of the plotted series: {time, value}. -/
structure PlotPoint where
  time : ℚ
  value : JSVal
deriving DecidableEq, Repr

/-- Local pnlData of the data effect in TradingChart.tsx. -/
def pnlData (u : List ChartData) : List PlotPoint :=
  (u.filter (fun d => pnlKeep d.value)).map (fun d => ⟨d.time, d.value⟩)

/-- Local underlyingData of the data effect in TradingChart.tsx. -/
def underlyingData (u : List ChartData) : List PlotPoint :=
  (u.filter (fun d => underlyingKeep d.underlying)).map
    (fun d => ⟨d.time, d.underlying⟩)

/-- Truthiness of the snapshot.trade_marker && trade_marker.type !== 'none'
test used by handleNavigate, getNavigationState and the markers effect:
a marker object is present and its type is not 'none'. -/
def hasActiveTradeMarker (s : SnapshotData) : Bool :=
  match s.trade_marker with
  | some m => !(m.type == MarkerType.none)
  | .none => false

/-- Direction argument of handleNavigate: 'prev' | 'next'. -/
inductive Direction where
  | prev
  | next
deriving DecidableEq, Repr

/-- Function handleNavigate of TradingChart.tsx.  The selection state
(selectedSnapshot, an Option) is passed in and the new selection state is
returned; every path of the source that does not call setSelectedSnapshot
returns the selection unchanged.  String comparison of ISO timestamps is
modelled by integer comparison of their epoch-millisecond values. -/
def handleNavigate (currentData : Option TradingDayData)
    (selectedSnapshot : Option SnapshotData) (direction : Direction) :
    Option SnapshotData :=
  match currentData, selectedSnapshot with
  | some data, some sel =>
    let tradeSnapshots := data.timeseries.filter hasActiveTradeMarker
    if tradeSnapshots.length = 0 then some sel
    else
      match direction with
      | .next =>
        match tradeSnapshots.find? (fun s => decide (sel.timestamp < s.timestamp)) with
        | some nextTradeSnapshot => some nextTradeSnapshot
        | .none => some sel
      | .prev =>
        match tradeSnapshots.reverse.find? (fun s => decide (s.timestamp < sel.timestamp)) with
        | some prevTradeSnapshot => some prevTradeSnapshot
        | .none => some sel
  | _, _ => selectedSnapshot

/-- Return shape of getNavigationState. -/
structure NavigationState where
  canNavigatePrev : Bool
  canNavigateNext : Bool
deriving DecidableEq, Repr

/-- Function getNavigationState of TradingChart.tsx: pure availability
query over the current data and selection. -/
def getNavigationState (currentData : Option TradingDayData)
    (selectedSnapshot : Option SnapshotData) : NavigationState :=
  match currentData, selectedSnapshot with
  | some data, some sel =>
    let tradeSnapshots := data.timeseries.filter hasActiveTradeMarker
    if tradeSnapshots.length = 0 then ⟨false, false⟩
    else
      { canNavigatePrev :=
          tradeSnapshots.any (fun s => decide (s.timestamp < sel.timestamp))
        canNavigateNext :=
          tradeSnapshots.any (fun s => decide (sel.timestamp < s.timestamp)) }
  | _, _ => ⟨false, false⟩

/-- Projection of getNavigationState onto one direction. -/
def canNavigate (currentData : Option TradingDayData)
    (selectedSnapshot : Option SnapshotData) (direction : Direction) : Bool :=
  match direction with
  | .prev => (getNavigationState currentData selectedSnapshot).canNavigatePrev
  | .next => (getNavigationState currentData selectedSnapshot).canNavigateNext

/-- Marker descriptor handed to pnlSeries.setMarkers; size is only present
on the selection marker. -/
structure SeriesMarker where
  time : ℚ
  position : String
  color : String
  shape : String
  text : String
  size : Option ℕ
deriving DecidableEq, Repr

/-- Filter of the tradeMarkers computation in the markers effect:
chartDataItem.snapshot?.trade_marker && trade_marker.type !== 'none'. -/
def tradeMarkerFilter (d : ChartData) : Bool :=
  match d.snapshot with
  | some s => hasActiveTradeMarker s
  | .none => false

/-- Test snapshot!.trade_marker!.type === 'square_up' used for color and
text of a trade marker (false when no snapshot/marker is present, which
after tradeMarkerFilter cannot happen). -/
def isSquareUp (d : ChartData) : Bool :=
  match d.snapshot with
  | some s =>
    match s.trade_marker with
    | some m => m.type == MarkerType.square_up
    | .none => false
  | .none => false

/-- Map of the tradeMarkers computation in the markers effect. -/
def toTradeMarker (d : ChartData) : SeriesMarker :=
  { time := d.time
    position := "belowBar"
    color := if isSquareUp d then "#dc2626" else "#3b82f6"
    shape := "circle"
    text := if isSquareUp d then "S" else "T"
    size := Option.none }

/-- Selection indicator marker built in the markers effect from the
selected snapshot (selectedTime = getTime() / 1000). -/
def selectionMarker (s : SnapshotData) : SeriesMarker :=
  { time := toSeconds s.timestamp
    position := "aboveBar"
    color := "#f59e0b"
    shape := "arrowDown"
    text := ""
    size := some 3 }

/-- Sort relation of the comparator (a, b) => a.time - b.time on markers. -/
def markerLE (a b : SeriesMarker) : Prop := a.time ≤ b.time

instance : DecidableRel markerLE :=
  fun a b => inferInstanceAs (Decidable (a.time ≤ b.time))

instance : IsTotal SeriesMarker markerLE := ⟨fun a b => le_total a.time b.time⟩

instance : IsTrans SeriesMarker markerLE := ⟨fun _ _ _ h₁ h₂ => le_trans h₁ h₂⟩

/-- Markers effect of TradingChart.tsx: recompute uniqueChartData, build
tradeMarkers when showTradeMarkers is on, append the selection indicator
when a snapshot is selected, and sort all markers ascending by time before
handing them to setMarkers. -/
def buildAllMarkers (data : TradingDayData) (showTradeMarkers : Bool)
    (selectedSnapshot : Option SnapshotData) : List SeriesMarker :=
  let u := uniqueChartData data.timeseries
  let tradeMarkers :=
    if showTradeMarkers then (u.filter tradeMarkerFilter).map toTradeMarker
    else []
  let allMarkers :=
    tradeMarkers ++
      (match selectedSnapshot with
       | some s => [selectionMarker s]
       | .none => [])
  List.insertionSort markerLE allMarkers

/-- Click parameter of chart.subscribeClick as far as the handler reads it:
whether param.point is truthy (a coordinate object is present), and
param.time (a number in the plotted seconds domain, absent outside data). -/
structure ClickParam where
  point : Bool
  time : Option ℚ
deriving DecidableEq, Repr

/-- Truthiness of param.time in the guard !param.time: false when the time
is absent and also when it is the number 0. -/
def jsTruthyTime : Option ℚ → Bool
  | some t => !(t == 0)
  | .none => false

/-- Click handler installed by chart.subscribeClick in TradingChart.tsx:
when point, time or data is missing the selection is set to null; otherwise
the snapshot of the uniqueChartData entry whose time equals param.time is
selected; when no entry matches (or it carries no snapshot) the handler
falls through without calling setSelectedSnapshot, leaving the selection
unchanged. -/
def subscribeClickHandler (currentData : Option TradingDayData)
    (param : ClickParam) (selected : Option SnapshotData) :
    Option SnapshotData :=
  if !param.point || !jsTruthyTime param.time || currentData.isNone then
    Option.none
  else
    match currentData, param.time with
    | some data, some t =>
      match (uniqueChartData data.timeseries).find? (fun item => item.time == t) with
      | some chartDataItem =>
        match chartDataItem.snapshot with
        | some snapshot => some snapshot
        | .none => selected
      | .none => selected
    | _, _ => selected

/-- Structural reading of dedupStep: replace the first accumulator entry
whose time equals the current tuple's time, or append the current tuple at
the end; dedupStep_eq_replaceOrAppend proves it equal to dedupStep. -/
def replaceOrAppend : List ChartData → ChartData → List ChartData
  | [], c => [c]
  | a :: rest, c =>
    if a.time == c.time then c :: rest else a :: replaceOrAppend rest c

theorem dedupStep_eq_replaceOrAppend (acc : List ChartData) (c : ChartData) :
    dedupStep acc c = replaceOrAppend acc c := by
  induction acc with
  | nil => rfl
  | cons a rest ih =>
    unfold dedupStep at ih ⊢
    rw [List.findIdx_cons]
    by_cases h : a.time == c.time
    · simp [h, replaceOrAppend]
    · simp only [h, cond_false, replaceOrAppend, if_neg h, List.length_cons]
      by_cases h2 :
          List.findIdx (fun item => item.time == c.time) rest = rest.length
      · rw [if_pos (by omega), ← ih, if_pos h2]
        rfl
      · rw [if_neg (by omega), List.set_cons_succ, ← ih, if_neg h2]
        simp [h]

theorem foldl_dedupStep_eq (l : List ChartData) (acc : List ChartData) :
    List.foldl dedupStep acc l = List.foldl replaceOrAppend acc l := by
  induction l generalizing acc with
  | nil => rfl
  | cons c l ih => rw [List.foldl_cons, List.foldl_cons,
      dedupStep_eq_replaceOrAppend, ih]

theorem mem_replaceOrAppend {acc : List ChartData} {c x : ChartData}
    (hx : x ∈ replaceOrAppend acc c) : x ∈ acc ∨ x = c := by
  induction acc with
  | nil =>
    simp [replaceOrAppend] at hx
    exact Or.inr hx
  | cons a rest ih =>
    unfold replaceOrAppend at hx
    by_cases h : a.time == c.time
    · rw [if_pos h] at hx
      rcases List.mem_cons.mp hx with h1 | h1
      · exact Or.inr h1
      · exact Or.inl (List.mem_cons_of_mem a h1)
    · rw [if_neg h] at hx
      rcases List.mem_cons.mp hx with h1 | h1
      · exact Or.inl (h1 ▸ List.mem_cons_self a rest)
      · rcases ih h1 with h2 | h2
        · exact Or.inl (List.mem_cons_of_mem a h2)
        · exact Or.inr h2

theorem replaceOrAppend_of_fresh {acc : List ChartData} {c : ChartData}
    (h : ∀ a ∈ acc, ¬a.time = c.time) : replaceOrAppend acc c = acc ++ [c] := by
  induction acc with
  | nil => rfl
  | cons a rest ih =>
    unfold replaceOrAppend
    rw [if_neg (by simpa using h a (List.mem_cons_self a rest)),
      ih (fun x hx => h x (List.mem_cons_of_mem a hx))]
    rfl

theorem nodup_times_replaceOrAppend {acc : List ChartData} {c : ChartData}
    (h : (acc.map ChartData.time).Nodup) :
    ((replaceOrAppend acc c).map ChartData.time).Nodup := by
  induction acc with
  | nil => simp [replaceOrAppend]
  | cons a rest ih =>
    rw [List.map_cons, List.nodup_cons] at h
    unfold replaceOrAppend
    by_cases hc : a.time == c.time
    · rw [if_pos hc, List.map_cons, List.nodup_cons]
      exact ⟨by rw [← beq_iff_eq.mp hc]; exact h.1, h.2⟩
    · rw [if_neg hc, List.map_cons, List.nodup_cons]
      refine ⟨fun hmem => ?_, ih h.2⟩
      rcases List.mem_map.mp hmem with ⟨x, hx, hxt⟩
      rcases mem_replaceOrAppend hx with h1 | h1
      · exact h.1 (List.mem_map.mpr ⟨x, h1, hxt⟩)
      · exact hc (beq_iff_eq.mpr (by rw [← hxt, h1]))

theorem getLast?_cons_alt {α : Type} (a : α) (l : List α) :
    (a :: l).getLast? =
      (match l.getLast? with
       | some d => some d
       | none => some a) := by
  cases l with
  | nil => rfl
  | cons b m =>
    rw [List.getLast?_cons_cons]
    cases hm : (b :: m).getLast? with
    | some d => rfl
    | none => exact absurd (List.getLast?_eq_none_iff.mp hm) (by simp)

theorem filter_replaceOrAppend {acc : List ChartData} {c : ChartData}
    (hnd : (acc.map ChartData.time).Nodup) (t : ℚ) :
    (replaceOrAppend acc c).filter (fun x => x.time == t) =
      if c.time = t then [c] else acc.filter (fun x => x.time == t) := by
  induction acc with
  | nil =>
    by_cases h : c.time = t
    · simp [replaceOrAppend, List.filter_cons, h]
    · simp [replaceOrAppend, List.filter_cons, h]
  | cons a rest ih =>
    rw [List.map_cons, List.nodup_cons] at hnd
    unfold replaceOrAppend
    by_cases hc : a.time == c.time
    · rw [if_pos hc]
      by_cases h : c.time = t
      · rw [if_pos h, List.filter_cons, if_pos (beq_iff_eq.mpr h)]
        have : rest.filter (fun x => x.time == t) = [] := by
          rw [List.filter_eq_nil_iff]
          intro x hx hxt
          exact hnd.1 (List.mem_map.mpr ⟨x, hx,
            by rw [beq_iff_eq.mp hxt, ← h, ← beq_iff_eq.mp hc]⟩)
        rw [this]
      · have hat : ¬(a.time == t) = true := by
          simp only [beq_iff_eq]
          intro he
          exact h (by rw [← beq_iff_eq.mp hc, he])
        have hct2 : ¬(c.time == t) = true := by
          simp only [beq_iff_eq]
          exact h
        rw [if_neg h, List.filter_cons, List.filter_cons, if_neg hct2,
          if_neg hat]
    · rw [if_neg hc]
      by_cases h : c.time = t
      · rw [if_pos h, List.filter_cons,
          if_neg (by
            simp only [beq_iff_eq]
            intro he
            exact hc (beq_iff_eq.mpr (by rw [he, h]))),
          ih hnd.2, if_pos h]
      · rw [if_neg h, List.filter_cons, List.filter_cons, ih hnd.2, if_neg h]

theorem nodup_times_foldl (l : List ChartData) :
    ∀ acc, (acc.map ChartData.time).Nodup →
      ((List.foldl replaceOrAppend acc l).map ChartData.time).Nodup := by
  induction l with
  | nil => intro acc h; exact h
  | cons c l ih =>
    intro acc h
    rw [List.foldl_cons]
    exact ih _ (nodup_times_replaceOrAppend h)

theorem mem_foldl_replaceOrAppend {l acc : List ChartData} {x : ChartData}
    (hx : x ∈ List.foldl replaceOrAppend acc l) : x ∈ acc ∨ x ∈ l := by
  induction l generalizing acc with
  | nil => exact Or.inl hx
  | cons c l ih =>
    rw [List.foldl_cons] at hx
    rcases ih hx with h | h
    · rcases mem_replaceOrAppend h with h1 | h1
      · exact Or.inl h1
      · exact Or.inr (h1 ▸ List.mem_cons_self c l)
    · exact Or.inr (List.mem_cons_of_mem c h)

theorem filter_foldl_replaceOrAppend (t : ℚ) (l : List ChartData) :
    ∀ acc, (acc.map ChartData.time).Nodup →
      (List.foldl replaceOrAppend acc l).filter (fun x => x.time == t) =
        (match (l.filter (fun x => x.time == t)).getLast? with
         | some d => [d]
         | none => acc.filter (fun x => x.time == t)) := by
  induction l with
  | nil => intro acc _; rfl
  | cons c l ih =>
    intro acc h
    rw [List.foldl_cons, ih _ (nodup_times_replaceOrAppend h)]
    by_cases hct : c.time = t
    · rw [List.filter_cons, if_pos (beq_iff_eq.mpr hct), getLast?_cons_alt]
      cases hl : (l.filter (fun x => x.time == t)).getLast? with
      | some d => rfl
      | none =>
        show (replaceOrAppend acc c).filter (fun x => x.time == t) = [c]
        rw [filter_replaceOrAppend h t, if_pos hct]
    · rw [List.filter_cons, if_neg (by simpa using hct)]
      cases hl : (l.filter (fun x => x.time == t)).getLast? with
      | some d => rfl
      | none =>
        show (replaceOrAppend acc c).filter (fun x => x.time == t) =
          acc.filter (fun x => x.time == t)
        rw [filter_replaceOrAppend h t, if_neg hct]

theorem uniqueChartData_perm_dedup (ts : List SnapshotData) :
    (uniqueChartData ts).Perm ((chartData ts).foldl replaceOrAppend []) := by
  rw [uniqueChartData, foldl_dedupStep_eq]
  exact List.perm_insertionSort timeLE _

theorem sorted_uniqueChartData (ts : List SnapshotData) :
    List.Sorted timeLE (uniqueChartData ts) :=
  List.sorted_insertionSort timeLE _

theorem nodup_times_uniqueChartData (ts : List SnapshotData) :
    ((uniqueChartData ts).map ChartData.time).Nodup := by
  rw [((uniqueChartData_perm_dedup ts).map ChartData.time).nodup_iff]
  exact nodup_times_foldl _ [] (by simp)

theorem pairwise_lt_uniqueChartData (ts : List SnapshotData) :
    (uniqueChartData ts).Pairwise (fun a b => a.time < b.time) := by
  have h1 : (uniqueChartData ts).Pairwise (fun a b => a.time ≤ b.time) :=
    sorted_uniqueChartData ts
  have h2 : (uniqueChartData ts).Pairwise (fun a b => a.time ≠ b.time) :=
    List.pairwise_map.mp (nodup_times_uniqueChartData ts)
  exact (h1.and h2).imp (fun h => lt_of_le_of_ne h.1 h.2)

theorem filter_uniqueChartData (ts : List SnapshotData) (t : ℚ) :
    (uniqueChartData ts).filter (fun x => x.time == t) =
      (match ((chartData ts).filter (fun x => x.time == t)).getLast? with
       | some d => [d]
       | none => []) := by
  have hperm := (uniqueChartData_perm_dedup ts).filter (fun x => x.time == t)
  rw [filter_foldl_replaceOrAppend t _ [] (by simp)] at hperm
  cases hl : ((chartData ts).filter (fun x => x.time == t)).getLast? with
  | some d =>
    rw [hl] at hperm
    exact List.perm_singleton.mp hperm
  | none =>
    rw [hl] at hperm
    exact hperm.eq_nil

theorem uniqueChartData_mem_toChartData {ts : List SnapshotData}
    {d : ChartData} (hd : d ∈ uniqueChartData ts) :
    ∃ s, d = toChartData s := by
  have hmem := (uniqueChartData_perm_dedup ts).mem_iff.mp hd
  rcases mem_foldl_replaceOrAppend hmem with h | h
  · exact absurd h (List.not_mem_nil d)
  · rcases List.mem_map.mp h with ⟨s, _, rfl⟩
    exact ⟨s, rfl⟩

theorem foldl_replaceOrAppend_of_nodup (l : List ChartData) :
    ∀ acc, (((acc ++ l).map ChartData.time)).Nodup →
      List.foldl replaceOrAppend acc l = acc ++ l := by
  induction l with
  | nil => intro acc _; simp
  | cons c l ih =>
    intro acc h
    have hfresh : ∀ a ∈ acc, ¬a.time = c.time := by
      intro a ha he
      rw [List.map_append, List.nodup_append] at h
      exact h.2.2 (List.mem_map.mpr ⟨a, ha, rfl⟩) (by rw [he]; simp)
    rw [List.foldl_cons, replaceOrAppend_of_fresh hfresh,
      ih (acc ++ [c]) (by simpa using h)]
    simp

theorem chartData_filterMap {u : List ChartData}
    (h : ∀ d ∈ u, ∃ s, d = toChartData s) :
    chartData (u.filterMap ChartData.snapshot) = u := by
  induction u with
  | nil => rfl
  | cons d rest ih =>
    rcases h d (List.mem_cons_self d rest) with ⟨s, rfl⟩
    rw [List.filterMap_cons]
    show chartData (s :: rest.filterMap ChartData.snapshot) = _
    rw [chartData, List.map_cons]
    rw [show List.map toChartData (rest.filterMap ChartData.snapshot) =
      chartData (rest.filterMap ChartData.snapshot) from rfl]
    rw [ih (fun x hx => h x (List.mem_cons_of_mem _ hx))]

theorem find?_min_of_sorted {α : Type} {R : α → α → Prop} {p : α → Bool} :
    ∀ {l : List α} {b : α}, l.Pairwise R → l.find? p = some b →
      ∀ s ∈ l, p s = true → R b s ∨ b = s := by
  intro l
  induction l with
  | nil => intro b _ hf; simp at hf
  | cons a t ih =>
    intro b hp hf s hsmem hps
    rw [List.find?_cons] at hf
    by_cases hpa : p a = true
    · rw [hpa] at hf
      have hb : a = b := by simpa using hf
      rcases List.mem_cons.mp hsmem with rfl | hmem
      · exact Or.inr hb.symm
      · exact Or.inl (hb ▸ (List.pairwise_cons.mp hp).1 s hmem)
    · rw [Bool.of_not_eq_true hpa] at hf
      rcases List.mem_cons.mp hsmem with rfl | hmem
      · exact absurd hps hpa
      · exact ih (List.pairwise_cons.mp hp).2 hf s hmem hps

theorem handleNavigate_next_eq (data : TradingDayData) (sel : SnapshotData) :
    handleNavigate (some data) (some sel) Direction.next =
      (if (data.timeseries.filter hasActiveTradeMarker).length = 0 then some sel
       else
        match (data.timeseries.filter hasActiveTradeMarker).find?
            (fun s => decide (sel.timestamp < s.timestamp)) with
        | some b => some b
        | Option.none => some sel) := rfl

theorem handleNavigate_prev_eq (data : TradingDayData) (sel : SnapshotData) :
    handleNavigate (some data) (some sel) Direction.prev =
      (if (data.timeseries.filter hasActiveTradeMarker).length = 0 then some sel
       else
        match (data.timeseries.filter hasActiveTradeMarker).reverse.find?
            (fun s => decide (s.timestamp < sel.timestamp)) with
        | some b => some b
        | Option.none => some sel) := rfl

theorem handleNavigate_next_of_find? {data : TradingDayData}
    {sel b : SnapshotData}
    (h : (data.timeseries.filter hasActiveTradeMarker).find?
      (fun s => decide (sel.timestamp < s.timestamp)) = some b) :
    handleNavigate (some data) (some sel) Direction.next = some b := by
  rw [handleNavigate_next_eq]
  have hne : ¬(data.timeseries.filter hasActiveTradeMarker).length = 0 := by
    intro h0
    rw [List.length_eq_zero.mp h0] at h
    simp at h
  rw [if_neg hne, h]

theorem handleNavigate_next_of_no_later {data : TradingDayData}
    {sel : SnapshotData}
    (h : ∀ s ∈ data.timeseries.filter hasActiveTradeMarker,
      ¬sel.timestamp < s.timestamp) :
    handleNavigate (some data) (some sel) Direction.next = some sel := by
  rw [handleNavigate_next_eq]
  by_cases h0 : (data.timeseries.filter hasActiveTradeMarker).length = 0
  · rw [if_pos h0]
  · rw [if_neg h0, List.find?_eq_none.mpr (fun x hx => by simpa using h x hx)]

theorem handleNavigate_prev_of_find? {data : TradingDayData}
    {sel b : SnapshotData}
    (h : (data.timeseries.filter hasActiveTradeMarker).reverse.find?
      (fun s => decide (s.timestamp < sel.timestamp)) = some b) :
    handleNavigate (some data) (some sel) Direction.prev = some b := by
  rw [handleNavigate_prev_eq]
  have hne : ¬(data.timeseries.filter hasActiveTradeMarker).length = 0 := by
    intro h0
    rw [List.length_eq_zero.mp h0] at h
    simp at h
  rw [if_neg hne, h]

theorem handleNavigate_prev_of_no_earlier {data : TradingDayData}
    {sel : SnapshotData}
    (h : ∀ s ∈ data.timeseries.filter hasActiveTradeMarker,
      ¬s.timestamp < sel.timestamp) :
    handleNavigate (some data) (some sel) Direction.prev = some sel := by
  rw [handleNavigate_prev_eq]
  by_cases h0 : (data.timeseries.filter hasActiveTradeMarker).length = 0
  · rw [if_pos h0]
  · rw [if_neg h0, List.find?_eq_none.mpr
      (fun x hx => by simpa using h x (List.mem_reverse.mp hx))]

theorem getNavigationState_eq (data : TradingDayData) (sel : SnapshotData) :
    getNavigationState (some data) (some sel) =
      (if (data.timeseries.filter hasActiveTradeMarker).length = 0 then
        ⟨false, false⟩
       else
        ⟨(data.timeseries.filter hasActiveTradeMarker).any
            (fun s => decide (s.timestamp < sel.timestamp)),
          (data.timeseries.filter hasActiveTradeMarker).any
            (fun s => decide (sel.timestamp < s.timestamp))⟩) := rfl

theorem canNavigateNext_eq_any (data : TradingDayData) (sel : SnapshotData) :
    (getNavigationState (some data) (some sel)).canNavigateNext =
      (data.timeseries.filter hasActiveTradeMarker).any
        (fun s => decide (sel.timestamp < s.timestamp)) := by
  rw [getNavigationState_eq]
  by_cases h0 : (data.timeseries.filter hasActiveTradeMarker).length = 0
  · rw [if_pos h0, List.length_eq_zero.mp h0]
    rfl
  · rw [if_neg h0]

theorem canNavigatePrev_eq_any (data : TradingDayData) (sel : SnapshotData) :
    (getNavigationState (some data) (some sel)).canNavigatePrev =
      (data.timeseries.filter hasActiveTradeMarker).any
        (fun s => decide (s.timestamp < sel.timestamp)) := by
  rw [getNavigationState_eq]
  by_cases h0 : (data.timeseries.filter hasActiveTradeMarker).length = 0
  · rw [if_pos h0, List.length_eq_zero.mp h0]
    rfl
  · rw [if_neg h0]

/-- Keeping test of the P&L plot filter holds exactly for numeric non-NaN
values: finite numbers and both infinities pass, NaN, null and undefined
do not. -/
theorem pnlKeep_iff (v : JSVal) :
    pnlKeep v = true ↔
      (∃ q, v = JSVal.num q) ∨ v = JSVal.inf ∨ v = JSVal.negInf := by
  cases v <;> simp [pnlKeep, typeofNumber, jsIsNaN]

/-- The underlying filter's additional null/undefined tests are redundant:
it keeps exactly the same values as the P&L filter. -/
theorem underlyingKeep_eq_pnlKeep (v : JSVal) : underlyingKeep v = pnlKeep v := by
  cases v <;> rfl

/-- Sample summary used by concrete instantiations. -/
def sampleSummary : DaySummary :=
  ⟨"2024-01-02", 0, 0, 0, Option.none, Option.none, 0, 0, Option.none⟩

/-- Builds a snapshot with the given timestamp, pnl, underlying price and
marker, and no positions. -/
def mkSnap (ts : Int) (pnl : JSVal) (up : JSVal) (tm : Option TradeMarker) :
    SnapshotData :=
  ⟨ts, pnl, up, 0, [], tm⟩

/-- Sample adjustment marker. -/
def adjustmentMarker : TradeMarker := ⟨MarkerType.adjustment, [], "adjustment"⟩

/-- Sample square-up marker. -/
def squareUpMarker : TradeMarker := ⟨MarkerType.square_up, [], "square-up"⟩

/-- Two snapshots sharing chart time 10 with different pnl values. -/
def snapA : SnapshotData := mkSnap 10000 (JSVal.num 100) JSVal.undef Option.none

/-- Later duplicate of snapA's time, carrying pnl 150 and a marker. -/
def snapB : SnapshotData :=
  mkSnap 10000 (JSVal.num 150) JSVal.undef (some squareUpMarker)

/-- C1: for every input snapshot list containing two (or more) entries with
equal chart times (equal integer-second timestamps at the source's
second-level precision), the reconciled output contains exactly one entry
for that time, and that entry is the chart tuple of the input entry that
appears latest in input order (the last element of the filtered chartData
list). -/
theorem c1_dedup_last_write_wins (ts : List SnapshotData) (t : ℚ) (d : ChartData)
    (_hdup : 2 ≤ ((chartData ts).filter (fun x => x.time == t)).length)
    (hlast : ((chartData ts).filter (fun x => x.time == t)).getLast? = some d) :
    (uniqueChartData ts).filter (fun x => x.time == t) = [d] := by
  rw [filter_uniqueChartData, hlast]

/-- Witness for C1: two snapshots at time 10, the later one (pnl 150) wins. -/
theorem c1_witness :
    (2 ≤ ((chartData [snapA, snapB]).filter (fun x => x.time == 10)).length ∧
      ((chartData [snapA, snapB]).filter (fun x => x.time == 10)).getLast? =
        some (toChartData snapB)) ∧
    (uniqueChartData [snapA, snapB]).filter (fun x => x.time == 10) =
      [toChartData snapB] :=
  ⟨⟨by decide, by decide⟩,
    c1_dedup_last_write_wins [snapA, snapB] 10 (toChartData snapB)
      (by decide) (by decide)⟩

/-- C5: the reconciler's output is strictly ascending by time for every
input snapshot list (in particular for every permutation of the same
snapshot set), hence free of duplicate time values. -/
theorem c5_reconciler_strictly_ascending (ts : List SnapshotData) :
    (uniqueChartData ts).Pairwise (fun a b => a.time < b.time) :=
  pairwise_lt_uniqueChartData ts

/-- C9: feeding the reconciler's output back to it as input (the snapshots
carried by the reconciled entries) yields the same series. -/
theorem c9_reconcile_idempotent (ts : List SnapshotData) :
    uniqueChartData ((uniqueChartData ts).filterMap ChartData.snapshot) =
      uniqueChartData ts := by
  have hchart : chartData ((uniqueChartData ts).filterMap ChartData.snapshot) =
      uniqueChartData ts :=
    chartData_filterMap (fun d hd => uniqueChartData_mem_toChartData hd)
  conv_lhs => rw [uniqueChartData, foldl_dedupStep_eq, hchart]
  rw [foldl_replaceOrAppend_of_nodup _ []
    (by simpa using nodup_times_uniqueChartData ts)]
  simpa using List.Sorted.insertionSort_eq (sorted_uniqueChartData ts)

/-- Snapshot whose pnl and underlying are positive Infinity. -/
def snapInf : SnapshotData := mkSnap 1000 JSVal.inf JSVal.inf Option.none

/-- Counterexample to C3: a snapshot whose total_pnl is positive Infinity
is NOT excluded from the plotted P&L value list (the filter only tests
typeof and isNaN, and Infinity passes both), so the P&L plot series is not
restricted to finite values; the same happens for underlying_price. -/
theorem c3_counterexample :
    pnlData (uniqueChartData [snapInf]) = [⟨1, JSVal.inf⟩] ∧
    underlyingData (uniqueChartData [snapInf]) = [⟨1, JSVal.inf⟩] := by
  decide

/-- C3 amended: a snapshot whose total_pnl is NaN or missing
(null/undefined) yields a tuple retained in the reconciled series but
excluded from the plotted P&L value list; numeric non-NaN values,
INCLUDING positive and negative Infinity, are plotted.  The plot list
contains exactly the kept entries of the series, and an entry failing the
filter contributes no plot point at its time.  The same holds
independently for underlying_price (whose filter keeps exactly the same
values, see underlyingKeep_eq_pnlKeep). -/
theorem c3_amended_value_filtering (ts : List SnapshotData) :
    (∀ p ∈ pnlData (uniqueChartData ts), pnlKeep p.value = true)
  ∧ (∀ d ∈ uniqueChartData ts, pnlKeep d.value = true →
      (⟨d.time, d.value⟩ : PlotPoint) ∈ pnlData (uniqueChartData ts))
  ∧ (∀ d ∈ uniqueChartData ts, pnlKeep d.value = false →
      ∀ p ∈ pnlData (uniqueChartData ts), ¬p.time = d.time)
  ∧ (∀ p ∈ underlyingData (uniqueChartData ts), underlyingKeep p.value = true)
  ∧ (∀ d ∈ uniqueChartData ts, underlyingKeep d.underlying = true →
      (⟨d.time, d.underlying⟩ : PlotPoint) ∈ underlyingData (uniqueChartData ts))
  ∧ (∀ d ∈ uniqueChartData ts, underlyingKeep d.underlying = false →
      ∀ p ∈ underlyingData (uniqueChartData ts), ¬p.time = d.time) := by
  have hnd := nodup_times_uniqueChartData ts
  refine ⟨?_, ?_, ?_, ?_, ?_, ?_⟩
  · intro p hp
    rcases List.mem_map.mp hp with ⟨d, hd, rfl⟩
    simpa using List.of_mem_filter hd
  · intro d hd hkeep
    exact List.mem_map.mpr ⟨d, List.mem_filter.mpr ⟨hd, hkeep⟩, rfl⟩
  · intro d hd hkeep p hp heq
    rcases List.mem_map.mp hp with ⟨d', hd', rfl⟩
    have hd'mem := List.mem_of_mem_filter hd'
    have : d' = d := List.inj_on_of_nodup_map hnd hd'mem hd heq
    rw [this] at hd'
    rw [List.of_mem_filter hd'] at hkeep
    exact Bool.true_eq_false.mp hkeep
  · intro p hp
    rcases List.mem_map.mp hp with ⟨d, hd, rfl⟩
    simpa using List.of_mem_filter hd
  · intro d hd hkeep
    exact List.mem_map.mpr ⟨d, List.mem_filter.mpr ⟨hd, hkeep⟩, rfl⟩
  · intro d hd hkeep p hp heq
    rcases List.mem_map.mp hp with ⟨d', hd', rfl⟩
    have hd'mem := List.mem_of_mem_filter hd'
    have : d' = d := List.inj_on_of_nodup_map hnd hd'mem hd heq
    rw [this] at hd'
    rw [List.of_mem_filter hd'] at hkeep
    exact Bool.true_eq_false.mp hkeep

/-- Snapshot with an ordinary finite pnl. -/
def snapFive : SnapshotData := mkSnap 5000 (JSVal.num 5) JSVal.undef Option.none

/-- Witness for the amended C3 at a concrete input: a finite pnl value is
plotted. -/
theorem c3_witness :
    (⟨5, JSVal.num 5⟩ : PlotPoint) ∈ pnlData (uniqueChartData [snapFive]) :=
  (c3_amended_value_filtering [snapFive]).2.1 (toChartData snapFive)
    (by decide) (by decide)

/-- C7: for every reconciled series, show-trade-markers flag and optional
selected snapshot, the final annotation list handed to setMarkers is
ascending by time, regardless of the order in which trade annotations and
the selection annotation were produced. -/
theorem c7_markers_sorted (data : TradingDayData) (showTradeMarkers : Bool)
    (selectedSnapshot : Option SnapshotData) :
    (buildAllMarkers data showTradeMarkers selectedSnapshot).Pairwise
      (fun a b => a.time ≤ b.time) := by
  unfold buildAllMarkers
  exact (List.sorted_insertionSort markerLE _).imp (fun h => h)

/-- C10: for every snapshot list (even unsorted or with duplicate
timestamps) and every current selection, navigate(next) either leaves the
selection unchanged or moves it to a snapshot of the series whose
timestamp is strictly greater and whose trade_marker.type is not 'none';
symmetrically for navigate(prev). -/
theorem c10_navigation_monotone (data : TradingDayData) (s0 : SnapshotData) :
    (handleNavigate (some data) (some s0) Direction.next = some s0 ∨
      ∃ b, handleNavigate (some data) (some s0) Direction.next = some b ∧
        b ∈ data.timeseries ∧ hasActiveTradeMarker b = true ∧
        s0.timestamp < b.timestamp)
  ∧ (handleNavigate (some data) (some s0) Direction.prev = some s0 ∨
      ∃ b, handleNavigate (some data) (some s0) Direction.prev = some b ∧
        b ∈ data.timeseries ∧ hasActiveTradeMarker b = true ∧
        b.timestamp < s0.timestamp) := by
  constructor
  · cases hf : (data.timeseries.filter hasActiveTradeMarker).find?
        (fun s => decide (s0.timestamp < s.timestamp)) with
    | some b =>
      refine Or.inr ⟨b, handleNavigate_next_of_find? hf, ?_, ?_, ?_⟩
      · exact List.mem_of_mem_filter (List.mem_of_find?_eq_some hf)
      · exact List.of_mem_filter (List.mem_of_find?_eq_some hf)
      · simpa using List.find?_some hf
    | none =>
      refine Or.inl (handleNavigate_next_of_no_later (fun s hs hlt => ?_))
      have := List.find?_eq_none.mp hf s hs
      simp at this
      exact absurd hlt (by simpa using this)
  · cases hf : (data.timeseries.filter hasActiveTradeMarker).reverse.find?
        (fun s => decide (s.timestamp < s0.timestamp)) with
    | some b =>
      refine Or.inr ⟨b, handleNavigate_prev_of_find? hf, ?_, ?_, ?_⟩
      · exact List.mem_of_mem_filter
          (List.mem_reverse.mp (List.mem_of_find?_eq_some hf))
      · exact List.of_mem_filter
          (List.mem_reverse.mp (List.mem_of_find?_eq_some hf))
      · simpa using List.find?_some hf
    | none =>
      refine Or.inl (handleNavigate_prev_of_no_earlier (fun s hs hlt => ?_))
      have := List.find?_eq_none.mp hf s (List.mem_reverse.mpr hs)
      simp at this
      exact absurd hlt (by simpa using this)

theorem subscribeClickHandler_with_time (data : TradingDayData) (t : ℚ)
    (selected : Option SnapshotData) (ht0 : ¬t = 0) :
    subscribeClickHandler (some data) ⟨true, some t⟩ selected =
      (match (uniqueChartData data.timeseries).find?
          (fun item => item.time == t) with
       | some chartDataItem =>
         (match chartDataItem.snapshot with
          | some snapshot => some snapshot
          | Option.none => selected)
       | Option.none => selected) := by
  have h1 : (t == 0) = false := by simpa using ht0
  simp only [subscribeClickHandler, jsTruthyTime, h1, Bool.not_true,
    Bool.not_false, Option.isNone_some, Bool.or_self, Bool.false_or,
    Bool.or_false, if_false]
  rfl

/-- C4 amended: when a click carries a point and a (nonzero) time
coordinate and data is loaded, but the time matches no reconciled entry,
the lookup returns none and the handler leaves the caller's selection
UNCHANGED (it does not call setSelectedSnapshot); the selection is set to
null only when the click carries no point/time coordinate or no data is
loaded. -/
theorem c4_amended_miss_leaves_selection (data : TradingDayData)
    (selected : Option SnapshotData) (t : ℚ) (ht0 : ¬t = 0)
    (hmiss : ∀ d ∈ uniqueChartData data.timeseries, ¬d.time = t) :
    (uniqueChartData data.timeseries).find? (fun item => item.time == t) =
      Option.none ∧
    subscribeClickHandler (some data) ⟨true, some t⟩ selected = selected := by
  have hfind : (uniqueChartData data.timeseries).find?
      (fun item => item.time == t) = Option.none :=
    List.find?_eq_none.mpr (fun x hx => by simpa using hmiss x hx)
  refine ⟨hfind, ?_⟩
  rw [subscribeClickHandler_with_time data t selected ht0, hfind]

/-- Snapshot at chart time 1 with pnl 1. -/
def snapOne : SnapshotData := mkSnap 1000 (JSVal.num 1) JSVal.undef Option.none

/-- Day data holding only snapOne. -/
def dataOne : TradingDayData := ⟨"2024-01-02", sampleSummary, [snapOne]⟩

/-- Counterexample to C4: clicking at time 2 — which matches no entry of
the reconciled series — while snapOne is selected returns none from the
lookup but leaves the selection at some snapOne instead of clearing it
to none as the claim requires. -/
theorem c4_counterexample :
    (uniqueChartData dataOne.timeseries).find? (fun item => item.time == 2) =
      Option.none ∧
    subscribeClickHandler (some dataOne) ⟨true, some 2⟩ (some snapOne) =
      some snapOne := by
  decide

/-- Witness for the amended C4 at a concrete input. -/
theorem c4_witness :
    (uniqueChartData dataOne.timeseries).find? (fun item => item.time == 3) =
      Option.none ∧
    subscribeClickHandler (some dataOne) ⟨true, some 3⟩ (some snapOne) =
      some snapOne :=
  c4_amended_miss_leaves_selection dataOne (some snapOne) 3
    (by decide) (by decide)

theorem handleNavigate_noData (sel : Option SnapshotData) (dir : Direction) :
    handleNavigate Option.none sel dir = sel := rfl

theorem handleNavigate_noSel (data : TradingDayData) (dir : Direction) :
    handleNavigate (some data) Option.none dir = Option.none := rfl

theorem getNavigationState_noData (sel : Option SnapshotData) :
    getNavigationState Option.none sel = ⟨false, false⟩ := rfl

theorem getNavigationState_noSel (data : TradingDayData) :
    getNavigationState (some data) Option.none = ⟨false, false⟩ := rfl

theorem canNavigate_noData (sel : Option SnapshotData) (dir : Direction) :
    canNavigate Option.none sel dir = false := by
  cases dir <;> rfl

theorem canNavigate_noSel (data : TradingDayData) (dir : Direction) :
    canNavigate (some data) Option.none dir = false := by
  cases dir <;> rfl

/-- C6: the availability query is a pure function of the current data and
selection (it is modelled as such and mutates nothing), it reports true
exactly when handleNavigate would change the selection — never an
"available" report followed by a no-op — and with no current selection
both directions report unavailable. -/
theorem c6_availability_agrees (currentData : Option TradingDayData)
    (selectedSnapshot : Option SnapshotData) (direction : Direction) :
    (canNavigate currentData selectedSnapshot direction = true ↔
      ¬handleNavigate currentData selectedSnapshot direction =
        selectedSnapshot)
  ∧ (selectedSnapshot = Option.none →
      canNavigate currentData selectedSnapshot direction = false) := by
  cases currentData with
  | none =>
    refine ⟨?_, fun _ => canNavigate_noData _ _⟩
    rw [canNavigate_noData, handleNavigate_noData]
    simp
  | some data =>
    cases selectedSnapshot with
    | none =>
      refine ⟨?_, fun _ => canNavigate_noSel _ _⟩
      rw [canNavigate_noSel, handleNavigate_noSel]
      simp
    | some sel =>
      refine ⟨?_, fun h => by cases h⟩
      cases direction with
      | next =>
        rw [show canNavigate (some data) (some sel) Direction.next =
            (getNavigationState (some data) (some sel)).canNavigateNext
          from rfl, canNavigateNext_eq_any]
        constructor
        · intro hany
          rcases List.any_eq_true.mp hany with ⟨s, hsmem, hslt⟩
          rcases Option.isSome_iff_exists.mp
            (List.find?_isSome
              (p := fun x => decide (sel.timestamp < x.timestamp)) |>.mpr
              ⟨s, hsmem, hslt⟩) with ⟨b, hb⟩
          rw [handleNavigate_next_of_find? hb]
          intro he
          have hb2 : b = sel := by simpa using he
          have hp := List.find?_some hb
          rw [hb2] at hp
          simp at hp
        · intro hne
          by_contra hany
          refine hne (handleNavigate_next_of_no_later ?_)
          intro s hs hlt
          exact hany (List.any_eq_true.mpr ⟨s, hs, by simpa using hlt⟩)
      | prev =>
        rw [show canNavigate (some data) (some sel) Direction.prev =
            (getNavigationState (some data) (some sel)).canNavigatePrev
          from rfl, canNavigatePrev_eq_any]
        constructor
        · intro hany
          rcases List.any_eq_true.mp hany with ⟨s, hsmem, hslt⟩
          rcases Option.isSome_iff_exists.mp
            (List.find?_isSome
              (p := fun x => decide (x.timestamp < sel.timestamp)) |>.mpr
              ⟨s, List.mem_reverse.mpr hsmem, hslt⟩) with ⟨b, hb⟩
          rw [handleNavigate_prev_of_find? hb]
          intro he
          have hb2 : b = sel := by simpa using he
          have hp := List.find?_some hb
          rw [hb2] at hp
          simp at hp
        · intro hne
          by_contra hany
          refine hne (handleNavigate_prev_of_no_earlier ?_)
          intro s hs hlt
          exact hany (List.any_eq_true.mpr ⟨s, hs, by simpa using hlt⟩)

/-- Specification of navigate(next) on a reconciled (strictly ascending)
series, following the spec: when a trade-marked entry strictly later than
the selection exists, the navigator selects the time-minimal such entry —
the first entry of the ascending trade-marked subsequence whose time is
strictly greater; when none exists, the selection is unchanged and the
availability query reports unavailable. -/
def NavNextSpec (data : TradingDayData) (sel : SnapshotData) : Prop :=
  ((∃ s ∈ data.timeseries, hasActiveTradeMarker s = true ∧
      sel.timestamp < s.timestamp) →
    ∃ b, handleNavigate (some data) (some sel) Direction.next = some b ∧
      b ∈ data.timeseries ∧ hasActiveTradeMarker b = true ∧
      sel.timestamp < b.timestamp ∧
      ∀ s ∈ data.timeseries, hasActiveTradeMarker s = true →
        sel.timestamp < s.timestamp → b.timestamp ≤ s.timestamp)
  ∧ ((¬∃ s ∈ data.timeseries, hasActiveTradeMarker s = true ∧
      sel.timestamp < s.timestamp) →
    handleNavigate (some data) (some sel) Direction.next = some sel ∧
    (getNavigationState (some data) (some sel)).canNavigateNext = false)

/-- Specification of navigate(previous) on a reconciled series: the
time-maximal trade-marked entry strictly earlier than the selection, or an
unavailable no-op. -/
def NavPrevSpec (data : TradingDayData) (sel : SnapshotData) : Prop :=
  ((∃ s ∈ data.timeseries, hasActiveTradeMarker s = true ∧
      s.timestamp < sel.timestamp) →
    ∃ b, handleNavigate (some data) (some sel) Direction.prev = some b ∧
      b ∈ data.timeseries ∧ hasActiveTradeMarker b = true ∧
      b.timestamp < sel.timestamp ∧
      ∀ s ∈ data.timeseries, hasActiveTradeMarker s = true →
        s.timestamp < sel.timestamp → s.timestamp ≤ b.timestamp)
  ∧ ((¬∃ s ∈ data.timeseries, hasActiveTradeMarker s = true ∧
      s.timestamp < sel.timestamp) →
    handleNavigate (some data) (some sel) Direction.prev = some sel ∧
    (getNavigationState (some data) (some sel)).canNavigatePrev = false)

/-- C2: on a reconciled series — the timeseries strictly ascending by
timestamp, as the Series Reconciler guarantees — navigate(next) selects
the first trade-marked entry strictly after the selection, navigate(prev)
the last one strictly before, and at a boundary the operation is a no-op
reported as unavailable.  (Strict ascent of timestamps is equivalent to
strict ascent of chart times by toSeconds_lt_toSeconds.) -/
theorem c2_direction_semantics (data : TradingDayData) (sel : SnapshotData)
    (hsorted : data.timeseries.Pairwise
      (fun a b => a.timestamp < b.timestamp)) :
    NavNextSpec data sel ∧ NavPrevSpec data sel := by
  have hfs : (data.timeseries.filter hasActiveTradeMarker).Pairwise
      (fun a b => a.timestamp < b.timestamp) := hsorted.filter _
  constructor
  · constructor
    · rintro ⟨s0, hs0mem, hs0m, hs0lt⟩
      rcases Option.isSome_iff_exists.mp
        (List.find?_isSome
          (p := fun x => decide (sel.timestamp < x.timestamp)) |>.mpr
          ⟨s0, List.mem_filter.mpr ⟨hs0mem, hs0m⟩, by simpa using hs0lt⟩)
        with ⟨b, hb⟩
      have hbmem := List.mem_of_find?_eq_some hb
      refine ⟨b, handleNavigate_next_of_find? hb,
        List.mem_of_mem_filter hbmem, List.of_mem_filter hbmem,
        by simpa using List.find?_some hb, ?_⟩
      intro s hsmem hsm hslt
      rcases find?_min_of_sorted hfs hb s (List.mem_filter.mpr ⟨hsmem, hsm⟩)
          (by simpa using hslt) with h | h
      · exact le_of_lt h
      · exact le_of_eq (by rw [h])
    · intro hnone
      have hall : ∀ s ∈ data.timeseries.filter hasActiveTradeMarker,
          ¬sel.timestamp < s.timestamp := by
        intro s hs hlt
        exact hnone ⟨s, List.mem_of_mem_filter hs, List.of_mem_filter hs, hlt⟩
      refine ⟨handleNavigate_next_of_no_later hall, ?_⟩
      rw [canNavigateNext_eq_any]
      refine Bool.eq_false_iff.mpr ?_
      intro h
      rcases List.any_eq_true.mp h with ⟨s, hs, hp⟩
      exact hall s hs (by simpa using hp)
  · constructor
    · rintro ⟨s0, hs0mem, hs0m, hs0lt⟩
      rcases Option.isSome_iff_exists.mp
        (List.find?_isSome
          (p := fun x => decide (x.timestamp < sel.timestamp)) |>.mpr
          ⟨s0, List.mem_reverse.mpr (List.mem_filter.mpr ⟨hs0mem, hs0m⟩),
            by simpa using hs0lt⟩)
        with ⟨b, hb⟩
      have hbmem := List.mem_reverse.mp (List.mem_of_find?_eq_some hb)
      have hrev : (data.timeseries.filter
          hasActiveTradeMarker).reverse.Pairwise
          (fun a b => b.timestamp < a.timestamp) :=
        List.pairwise_reverse.mpr hfs
      refine ⟨b, handleNavigate_prev_of_find? hb,
        List.mem_of_mem_filter hbmem, List.of_mem_filter hbmem,
        by simpa using List.find?_some hb, ?_⟩
      intro s hsmem hsm hslt
      rcases find?_min_of_sorted hrev hb s
          (List.mem_reverse.mpr (List.mem_filter.mpr ⟨hsmem, hsm⟩))
          (by simpa using hslt) with h | h
      · exact le_of_lt h
      · exact le_of_eq (by rw [h])
    · intro hnone
      have hall : ∀ s ∈ data.timeseries.filter hasActiveTradeMarker,
          ¬s.timestamp < sel.timestamp := by
        intro s hs hlt
        exact hnone ⟨s, List.mem_of_mem_filter hs, List.of_mem_filter hs, hlt⟩
      refine ⟨handleNavigate_prev_of_no_earlier hall, ?_⟩
      rw [canNavigatePrev_eq_any]
      refine Bool.eq_false_iff.mpr ?_
      intro h
      rcases List.any_eq_true.mp h with ⟨s, hs, hp⟩
      exact hall s hs (by simpa using hp)

/-- C8 amended: round-trip symmetry holds when, additionally to the
original claim's side conditions, the series is strictly ascending by
timestamp (a reconciled series) and A itself is a trade-marked entry of
the series: if navigate(next) moves the selection from A to B and no
trade-marked entry other than A and B lies strictly between their times,
then navigate(previous) from B returns the selection to A. -/
theorem c8_amended_roundtrip (data : TradingDayData) (A B : SnapshotData)
    (hsorted : data.timeseries.Pairwise
      (fun a b => a.timestamp < b.timestamp))
    (hAmem : A ∈ data.timeseries) (hAmark : hasActiveTradeMarker A = true)
    (hnext : handleNavigate (some data) (some A) Direction.next = some B)
    (hmoves : ¬B = A)
    (hbetween : ∀ s ∈ data.timeseries, hasActiveTradeMarker s = true →
      A.timestamp < s.timestamp → s.timestamp < B.timestamp →
      s = A ∨ s = B) :
    handleNavigate (some data) (some B) Direction.prev = some A := by
  have hfs : (data.timeseries.filter hasActiveTradeMarker).Pairwise
      (fun a b => a.timestamp < b.timestamp) := hsorted.filter _
  have hfind : (data.timeseries.filter hasActiveTradeMarker).find?
      (fun s => decide (A.timestamp < s.timestamp)) = some B := by
    rw [handleNavigate_next_eq] at hnext
    by_cases h0 : (data.timeseries.filter hasActiveTradeMarker).length = 0
    · rw [if_pos h0] at hnext
      have hAB : A = B := Option.some.inj hnext
      exact absurd hAB.symm hmoves
    · rw [if_neg h0] at hnext
      cases hf : (data.timeseries.filter hasActiveTradeMarker).find?
          (fun s => decide (A.timestamp < s.timestamp)) with
      | some b =>
        rw [hf] at hnext
        exact hnext
      | none =>
        rw [hf] at hnext
        have hAB : A = B := Option.some.inj hnext
        exact absurd hAB.symm hmoves
  have hABlt : A.timestamp < B.timestamp := by
    simpa using List.find?_some hfind
  have hexA : A ∈ data.timeseries.filter hasActiveTradeMarker :=
    List.mem_filter.mpr ⟨hAmem, hAmark⟩
  rcases Option.isSome_iff_exists.mp
    (List.find?_isSome
      (p := fun x => decide (x.timestamp < B.timestamp)) |>.mpr
      ⟨A, List.mem_reverse.mpr hexA, by simpa using hABlt⟩) with ⟨c, hc⟩
  have hcmem : c ∈ data.timeseries.filter hasActiveTradeMarker :=
    List.mem_reverse.mp (List.mem_of_find?_eq_some hc)
  have hclt : c.timestamp < B.timestamp := by simpa using List.find?_some hc
  have hrev : (data.timeseries.filter hasActiveTradeMarker).reverse.Pairwise
      (fun a b => b.timestamp < a.timestamp) :=
    List.pairwise_reverse.mpr hfs
  rcases find?_min_of_sorted hrev hc A (List.mem_reverse.mpr hexA)
      (by simpa using hABlt) with hlt | heq
  · rcases hbetween c (List.mem_of_mem_filter hcmem)
        (List.of_mem_filter hcmem) hlt hclt with h | h
    · rw [handleNavigate_prev_of_find? hc, h]
    · exact absurd (h ▸ hclt) (lt_irrefl _)
  · rw [handleNavigate_prev_of_find? hc, heq]

/-- Trade-marked snapshot at chart time 1 (the earliest entry). -/
def snapC8a : SnapshotData :=
  mkSnap 1000 (JSVal.num 1) JSVal.undef (some adjustmentMarker)

/-- Unmarked snapshot at chart time 10 (selection A of the
counterexample). -/
def snapC8b : SnapshotData := mkSnap 10000 (JSVal.num 2) JSVal.undef Option.none

/-- Trade-marked snapshot at chart time 20. -/
def snapC8c : SnapshotData :=
  mkSnap 20000 (JSVal.num 3) JSVal.undef (some squareUpMarker)

/-- Sorted day data with a marked entry before and after the unmarked
selection. -/
def dataC8 : TradingDayData :=
  ⟨"2024-01-02", sampleSummary, [snapC8a, snapC8b, snapC8c]⟩

/-- Counterexample to C8: with A = snapC8b (unmarked, time 10),
navigate(next) moves the selection to B = snapC8c (time 20), no
trade-marked entry other than A and B lies strictly between times 10 and
20, yet navigate(previous) from B selects snapC8a (time 1), not A, so the
round trip fails as claimed. -/
theorem c8_counterexample :
    handleNavigate (some dataC8) (some snapC8b) Direction.next =
      some snapC8c ∧
    (∀ s ∈ dataC8.timeseries, hasActiveTradeMarker s = true →
      snapC8b.timestamp < s.timestamp → s.timestamp < snapC8c.timestamp →
      s = snapC8b ∨ s = snapC8c) ∧
    handleNavigate (some dataC8) (some snapC8c) Direction.prev =
      some snapC8a ∧
    ¬snapC8a = snapC8b := by
  decide

/-- Witness for the amended C8 at a concrete input: A = snapC8a is itself
trade-marked, next goes to snapC8c, and prev returns to snapC8a. -/
theorem c8_witness :
    handleNavigate (some dataC8) (some snapC8c) Direction.prev =
      some snapC8a :=
  c8_amended_roundtrip dataC8 snapC8a snapC8c (by decide) (by decide)
    (by decide) (by decide) (by decide) (by decide)

/-- Witness for C2 at a concrete sorted input. -/
theorem c2_witness : NavNextSpec dataC8 snapC8b ∧ NavPrevSpec dataC8 snapC8b :=
  c2_direction_semantics dataC8 snapC8b (by decide)

/-- Witness for C6 at a concrete input. -/
theorem c6_witness :
    (canNavigate (some dataC8) (some snapC8b) Direction.next = true ↔
      ¬handleNavigate (some dataC8) (some snapC8b) Direction.next =
        some snapC8b)
  ∧ ((some snapC8b : Option SnapshotData) = Option.none →
      canNavigate (some dataC8) (some snapC8b) Direction.next = false) :=
  c6_availability_agrees (some dataC8) (some snapC8b) Direction.next
